import Mathlib

/-!
# Redis driver of the ratelimit service: pool, connection and dial

Shallow embedding of `src/redis/driver_impl.go`.

The Go code drives three external collaborators: the radix pool and client,
the gostats gauge and counters, and the logger.  The embedding treats them as
follows.

* Every call made on radix, on the network dialers or on the logger is
  recorded as a `Call`; each embedded function returns the calls it made, in
  program order.
* A value returned by an external call is an argument of the embedded
  function (`ret` for `pool.Get`, `resp` for `client.PipeResp`, `DialEnv` for
  the dial steps), so every theorem holds for every behaviour of radix.
* The gauge and the counters are the numbers they hold: `Inc` adds one, `Dec`
  subtracts one.
* A Go panic is the `error` alternative of `Except Panic`; the state reached
  at the panic is returned next to it, because a caller that recovers sees it.
* `pending` is a Go `uint`: a natural number below `2 ^ bits`, where `bits`
  (32 or 64 on the Go targets) is an argument of `PipeAppend`, the only place
  that can wrap.
-/

namespace redis

/-- Go `error` value: `none` is nil, `some m` is a non-nil error whose `Error()` is `m`. -/
abbrev error := Option String

/-- Pointer to a radix client (`*redis.Client`): `none` is nil, `some a` an address. -/
abbrev ClientPtr := Option Nat

/-- Transport connection (`net.Conn`): `none` is nil, `some a` an open socket. -/
abbrev ConnPtr := Option Nat

/-- Modelled from the spec: the `RedisError` type, declared outside `driver_impl.go`;
"a structured error value carrying a human-readable message", built from a string. -/
structure RedisError where
  msg : String
deriving DecidableEq, Repr

/-- Value carried by a panic raised in this file: a `RedisError` from `checkError`,
or the failure of `assert.Assert`. -/
inductive Panic where
  | redisError (e : RedisError)
  | assertFailed
deriving DecidableEq, Repr

/-- Reply of the radix client (`redis.Resp`): the `Err` field read by `PipeResponse`
and the payload. -/
structure Resp where
  Err : error
  val : String
deriving DecidableEq, Repr

/-- Calls on the external collaborators, as they appear in `driver_impl.go`. -/
inductive Call where
  | poolGet
  | poolPut (client : ClientPtr)
  | clientPipeAppend (client : ClientPtr) (cmd : String) (args : List String)
  | clientPipeResp (client : ClientPtr)
  | clientCmd (client : ClientPtr) (cmd : String) (args : List String)
  | clientClose (client : ClientPtr)
  | tlsDial (network addr : String)
  | netDial (network addr : String)
  | newClient (conn : ConnPtr)
  | warnf (format : String) (args : List String)
deriving DecidableEq, Repr

/-- Gauge increment (`stats.Gauge.Inc`); a gauge is the integer it holds. -/
def Gauge.Inc (g : Int) : Int := g + 1

/-- Gauge decrement (`stats.Gauge.Dec`). -/
def Gauge.Dec (g : Int) : Int := g - 1

/-- Counter increment (`stats.Counter.Inc`); a counter is the number it holds. -/
def Counter.Inc (c : Nat) : Nat := c + 1

/-- The three metrics of a pool: the gauge `cx_active` and the counters `cx_total`
and `cx_local_close`. -/
structure poolStats where
  connectionActive : Int
  connectionTotal : Nat
  connectionClose : Nat
deriving DecidableEq, Repr

/-- The pool wrapper.  Its `pool` field points to the radix pool, whose calls are
recorded as `Call.poolGet` and `Call.poolPut`; the mutable part is `stats`. -/
structure poolImpl where
  stats : poolStats
deriving DecidableEq, Repr

/-- The connection wrapper: a radix client and the count of pipelined commands
appended and not yet read back (`uint`). -/
structure connectionImpl where
  client : ClientPtr
  pending : Nat
deriving DecidableEq, Repr

/-- The response wrapper. -/
structure responseImpl where
  response : Resp
deriving DecidableEq, Repr

/-- Modelled from the spec: `assert.Assert` of package `src/assert`, which is not in
`driver_impl.go`: a false condition "must terminate the process-level operation
immediately (assertion failure)"; a true one returns. -/
def assert.Assert (b : Bool) : Except Panic Unit :=
  if b then .ok () else .error Panic.assertFailed

/-- `checkError`: panic with `RedisError(err.Error())` on a non-nil error. -/
def checkError (err : error) : Except Panic Unit :=
  match err with
  | some m => .error (Panic.redisError ⟨m⟩)
  | none => .ok ()

/-- `poolImpl.Get`; `ret` is what `this.pool.Get()` returns. -/
def poolImpl.Get (this : poolImpl) (ret : ClientPtr × error) :
    Except Panic connectionImpl × poolImpl × List Call :=
  let client := ret.1
  let err := ret.2
  match checkError err with
  | .error p => (.error p, this, [Call.poolGet])
  | .ok () =>
    let this1 : poolImpl :=
      { this with stats := { this.stats with
          connectionActive := Gauge.Inc this.stats.connectionActive } }
    let this2 : poolImpl :=
      { this1 with stats := { this1.stats with
          connectionTotal := Counter.Inc this1.stats.connectionTotal } }
    (.ok { client := client, pending := 0 }, this2, [Call.poolGet])

/-- `poolImpl.Put`.  The argument is a `connectionImpl`, the only implementation of
`Connection`, so the type assertion of the first line succeeds. -/
def poolImpl.Put (this : poolImpl) (c : connectionImpl) : poolImpl × List Call :=
  let impl := c
  let this1 : poolImpl :=
    { this with stats := { this.stats with
        connectionActive := Gauge.Dec this.stats.connectionActive } }
  if impl.pending == 0 then
    (this1, [Call.poolPut impl.client])
  else
    ({ this1 with stats := { this1.stats with
        connectionClose := Counter.Inc this1.stats.connectionClose } },
     [Call.clientClose impl.client])

/-- `connectionImpl.PipeAppend`; `this.pending++` wraps at `2 ^ bits`. -/
def connectionImpl.PipeAppend (bits : Nat) (this : connectionImpl) (cmd : String)
    (args : List String) : connectionImpl × List Call :=
  ({ this with pending := (this.pending + 1) % 2 ^ bits },
   [Call.clientPipeAppend this.client cmd args])

/-- `connectionImpl.PipeResponse`; `resp` is what `this.client.PipeResp()` returns.
The decrement follows a passed `pending > 0`, so it cannot wrap. -/
def connectionImpl.PipeResponse (this : connectionImpl) (resp : Resp) :
    Except Panic responseImpl × connectionImpl × List Call :=
  match assert.Assert (decide (this.pending > 0)) with
  | .error p => (.error p, this, [])
  | .ok () =>
    let this1 : connectionImpl := { this with pending := this.pending - 1 }
    match checkError resp.Err with
    | .error p => (.error p, this1, [Call.clientPipeResp this.client])
    | .ok () => (.ok { response := resp }, this1, [Call.clientPipeResp this.client])

/-- Results of the external steps of one dial: the two dialers, `redis.NewClient`,
and the `Err` field of the reply to `AUTH`. -/
structure DialEnv where
  tlsDial : ConnPtr × error
  netDial : ConnPtr × error
  newClient : ClientPtr × error
  authErr : error
deriving DecidableEq, Repr

/-- The dial closure `df` built by `NewPoolImpl`, which captures `useTls`, `auth`
and `url`.  Returns the pair `(client, err)` and the calls made. -/
def NewPoolImpl.df (useTls : Bool) (auth url : String) (env : DialEnv)
    (_network addr : String) : (ClientPtr × error) × List Call :=
  let dialed : (ConnPtr × error) × List Call :=
    if useTls then (env.tlsDial, [Call.tlsDial "tcp" addr])
    else (env.netDial, [Call.netDial "tcp" addr])
  let conn := dialed.1.1
  match dialed.1.2 with
  | some e => ((none, some e), dialed.2)
  | none =>
    let client := env.newClient.1
    let calls1 := dialed.2 ++ [Call.newClient conn]
    match env.newClient.2 with
    | some e => ((none, some e), calls1)
    | none =>
      if auth != "" then
        let calls2 := calls1 ++
          [Call.warnf "enabling authentication to redis on %s" [url],
           Call.clientCmd client "AUTH" [auth]]
        match env.authErr with
        | some e => ((none, some e), calls2 ++ [Call.clientClose client])
        | none => ((client, none), calls2)
      else
        ((client, none), calls1)

/-- One call made by the borrower of a connection. -/
inductive PipeOp where
  | append (cmd : String) (args : List String)
  | response (resp : Resp)
deriving DecidableEq, Repr

/-- A borrower at work on one connection: the connection, the outcome of each
`PipeResponse` call so far (oldest first) and the calls made on radix. -/
structure PipeRun where
  conn : connectionImpl
  results : List (Except Panic responseImpl)
  calls : List Call

/-- The borrower makes one call; a panic of `PipeResponse` is caught by its
recovery boundary and kept as the outcome of that call. -/
def PipeRun.step (bits : Nat) (s : PipeRun) : PipeOp → PipeRun
  | .append cmd args =>
    let r := connectionImpl.PipeAppend bits s.conn cmd args
    { s with conn := r.1, calls := s.calls ++ r.2 }
  | .response resp =>
    let r := connectionImpl.PipeResponse s.conn resp
    { conn := r.2.1, results := s.results ++ [r.1], calls := s.calls ++ r.2.2 }

/-- The borrower makes the calls of `ops`, in order. -/
def PipeRun.run (bits : Nat) (s : PipeRun) (ops : List PipeOp) : PipeRun :=
  ops.foldl (PipeRun.step bits) s

/-- A borrower that has just received `c`. -/
def PipeRun.start (c : connectionImpl) : PipeRun :=
  { conn := c, results := [], calls := [] }

/-- Is the call a `PipeAppend`? -/
def PipeOp.isAppend : PipeOp → Bool
  | .append _ _ => true
  | .response _ => false

/-- Did the `PipeResponse` call return a response? -/
def isReadBack : Except Panic responseImpl → Bool
  | .ok _ => true
  | .error _ => false

/-- Did the `PipeResponse` call abort with a `RedisError`? -/
def isAborted : Except Panic responseImpl → Bool
  | .error (Panic.redisError _) => true
  | _ => false

/-- Number of commands appended by `ops`. -/
def appended (ops : List PipeOp) : Nat := ops.countP PipeOp.isAppend

/-- Number of replies read back with success. -/
def PipeRun.readBack (s : PipeRun) : Nat := s.results.countP isReadBack

/-- Number of `PipeResponse` calls that aborted with a `RedisError`. -/
def PipeRun.aborted (s : PipeRun) : Nat := s.results.countP isAborted

/-- One call on the pool: a `Get` with the answer of the radix pool, or the `Put`
of the connection at position `i` among those checked out, whose `pending` has
become `pending` since its `Get`. -/
inductive PoolOp where
  | get (ret : ClientPtr × error)
  | put (i : Nat) (pending : Nat)
deriving DecidableEq, Repr

/-- A pool in use: the pool, the connections checked out (returned by a `Get`
that succeeded and not yet `Put`) and the calls made on radix. -/
structure PoolRun where
  this : poolImpl
  out : List connectionImpl
  calls : List Call
deriving DecidableEq, Repr

/-- One call on the pool.  A `Get` that panics is caught by the caller and checks
nothing out.  `none` when the `Put` names no checked-out connection. -/
def PoolRun.step (s : PoolRun) : PoolOp → Option PoolRun
  | .get ret =>
    match poolImpl.Get s.this ret with
    | (.ok c, this1, cs) => some { this := this1, out := s.out ++ [c], calls := s.calls ++ cs }
    | (.error _, this1, cs) => some { this := this1, out := s.out, calls := s.calls ++ cs }
  | .put i pending =>
    match s.out[i]? with
    | none => none
    | some c =>
      let r := poolImpl.Put s.this { c with pending := pending }
      some { this := r.1, out := s.out.eraseIdx i, calls := s.calls ++ r.2 }

/-- The calls of `ops` on the pool, in order. -/
def PoolRun.run (s : PoolRun) : List PoolOp → Option PoolRun
  | [] => some s
  | op :: ops =>
    match PoolRun.step s op with
    | none => none
    | some s1 => PoolRun.run s1 ops

/-- A pool with nothing checked out. -/
def PoolRun.start (this : poolImpl) : PoolRun :=
  { this := this, out := [], calls := [] }

/-! ## The error translator -/

/-- C8: `checkError` returns normally on a nil error; on a non-nil error with
message `m` it panics with the `RedisError` whose message is exactly `m`, and so
never returns normally. -/
theorem checkError_nil_or_panic :
    checkError none = .ok () ∧
    (∀ m : String, checkError (some m) = .error (Panic.redisError ⟨m⟩)) ∧
    (∀ (m : String) (u : Unit), checkError (some m) ≠ .ok u) := by
  refine ⟨rfl, fun m => rfl, fun m u h => ?_⟩
  simp [checkError] at h

/-! ## Get and Put -/

/-- C4: when the radix pool yields `client` with a nil error, `Get` adds one to the
active gauge and one to the total counter, leaves the closed counter alone, and
returns a connection that wraps `client` with `pending = 0`. -/
theorem Get_success (this : poolImpl) (client : ClientPtr) :
    poolImpl.Get this (client, none) =
      (.ok { client := client, pending := 0 },
       { stats := { connectionActive := this.stats.connectionActive + 1,
                    connectionTotal := this.stats.connectionTotal + 1,
                    connectionClose := this.stats.connectionClose } },
       [Call.poolGet]) := by
  rfl

/-- C5: when the radix pool answers with a non-nil error of message `m`, `Get`
panics with the `RedisError` of message `m`, returns no connection, and leaves the
three metrics as they were. -/
theorem Get_failure (this : poolImpl) (client : ClientPtr) (m : String) :
    poolImpl.Get this (client, some m) =
      (.error (Panic.redisError ⟨m⟩), this, [Call.poolGet]) := by
  rfl

/-- C1: `Put` of a connection with `pending > 0` calls `Close` on its client and
makes no other call on radix (no `pool.Put`), adds exactly one to the closed
counter, subtracts one from the active gauge and leaves the total counter alone. -/
theorem Put_pending_closes (this : poolImpl) (c : connectionImpl) (h : 0 < c.pending) :
    poolImpl.Put this c =
      ({ stats := { connectionActive := this.stats.connectionActive - 1,
                    connectionTotal := this.stats.connectionTotal,
                    connectionClose := this.stats.connectionClose + 1 } },
       [Call.clientClose c.client]) ∧
    ∀ x : ClientPtr, Call.poolPut x ∉ (poolImpl.Put this c).2 := by
  have hne : c.pending ≠ 0 := Nat.pos_iff_ne_zero.mp h
  simp [poolImpl.Put, hne, Gauge.Dec, Counter.Inc]

/-- Witness of C1 on a connection with two unread replies. -/
theorem Put_pending_closes_witness :
    poolImpl.Put ⟨⟨3, 10, 1⟩⟩ ⟨some 7, 2⟩ = (⟨⟨2, 10, 2⟩⟩, [Call.clientClose (some 7)]) ∧
    ∀ x : ClientPtr, Call.poolPut x ∉ (poolImpl.Put ⟨⟨3, 10, 1⟩⟩ ⟨some 7, 2⟩).2 :=
  Put_pending_closes ⟨⟨3, 10, 1⟩⟩ ⟨some 7, 2⟩ (by decide)

/-- C3: when `Get` succeeds, a `Put` of the returned connection right after it
brings the active gauge back to its value before the `Get`, leaves the closed
counter alone, and makes exactly one call on radix: `pool.Put` of the client that
`pool.Get` returned; the client is not closed. -/
theorem Get_then_Put_recycles (this this1 : poolImpl) (ret : ClientPtr × error)
    (c : connectionImpl) (cs : List Call)
    (h : poolImpl.Get this ret = (.ok c, this1, cs)) :
    (poolImpl.Put this1 c).1.stats.connectionActive = this.stats.connectionActive ∧
    (poolImpl.Put this1 c).1.stats.connectionClose = this.stats.connectionClose ∧
    (poolImpl.Put this1 c).2 = [Call.poolPut ret.1] ∧
    ∀ x : ClientPtr, Call.clientClose x ∉ (poolImpl.Put this1 c).2 := by
  obtain ⟨client, err⟩ := ret
  cases err with
  | some m => simp [poolImpl.Get, checkError] at h
  | none =>
    simp only [poolImpl.Get, checkError, Prod.mk.injEq, Except.ok.injEq] at h
    obtain ⟨hc, h1, -⟩ := h
    subst hc h1
    simp [poolImpl.Put, Gauge.Dec, Gauge.Inc, Counter.Inc]

/-- Witness of C3: the radix pool yields client 7. -/
theorem Get_then_Put_recycles_witness :
    (poolImpl.Put ⟨⟨4, 11, 1⟩⟩ ⟨some 7, 0⟩).1.stats.connectionActive = 3 ∧
    (poolImpl.Put ⟨⟨4, 11, 1⟩⟩ ⟨some 7, 0⟩).1.stats.connectionClose = 1 ∧
    (poolImpl.Put ⟨⟨4, 11, 1⟩⟩ ⟨some 7, 0⟩).2 = [Call.poolPut (some 7)] ∧
    ∀ x : ClientPtr, Call.clientClose x ∉ (poolImpl.Put ⟨⟨4, 11, 1⟩⟩ ⟨some 7, 0⟩).2 :=
  Get_then_Put_recycles ⟨⟨3, 10, 1⟩⟩ ⟨⟨4, 11, 1⟩⟩ (some 7, none) ⟨some 7, 0⟩ [Call.poolGet] rfl

/-! ## The pending counter -/

/-- C10: on a connection with `pending > 0`, `PipeResponse` leaves `pending`
exactly one lower whatever the reply: it reads one reply from the client, and when
the reply carries an error of message `m` it panics with the `RedisError` of
message `m` and returns no response, with `pending` already decremented; when the
reply carries no error it returns the response. -/
theorem PipeResponse_decrements (this : connectionImpl) (resp : Resp)
    (h : 0 < this.pending) :
    (connectionImpl.PipeResponse this resp).2.1.pending + 1 = this.pending ∧
    (connectionImpl.PipeResponse this resp).2.1.client = this.client ∧
    (connectionImpl.PipeResponse this resp).2.2 = [Call.clientPipeResp this.client] ∧
    (∀ m : String, resp.Err = some m →
      (connectionImpl.PipeResponse this resp).1 = .error (Panic.redisError ⟨m⟩)) ∧
    (resp.Err = none →
      (connectionImpl.PipeResponse this resp).1 = .ok { response := resp }) := by
  obtain ⟨e, v⟩ := resp
  cases e with
  | none =>
    simp [connectionImpl.PipeResponse, assert.Assert, checkError, h]
    omega
  | some m =>
    simp [connectionImpl.PipeResponse, assert.Assert, checkError, h]
    omega

/-- Witness of C10: a reply with an error on a connection with `pending = 2`. -/
theorem PipeResponse_decrements_witness :
    (connectionImpl.PipeResponse ⟨some 7, 2⟩ ⟨some "EOF", ""⟩).2.1.pending + 1 = 2 ∧
    (connectionImpl.PipeResponse ⟨some 7, 2⟩ ⟨some "EOF", ""⟩).2.1.client = some 7 ∧
    (connectionImpl.PipeResponse ⟨some 7, 2⟩ ⟨some "EOF", ""⟩).2.2
      = [Call.clientPipeResp (some 7)] ∧
    (∀ m : String, some "EOF" = some m →
      (connectionImpl.PipeResponse ⟨some 7, 2⟩ ⟨some "EOF", ""⟩).1
        = .error (Panic.redisError ⟨m⟩)) ∧
    ((some "EOF" : error) = none →
      (connectionImpl.PipeResponse ⟨some 7, 2⟩ ⟨some "EOF", ""⟩).1
        = .ok { response := ⟨some "EOF", ""⟩ }) :=
  PipeResponse_decrements ⟨some 7, 2⟩ ⟨some "EOF", ""⟩ (by decide)

/-! ## Sequences of calls on one connection -/

/-- A run makes its first call, then the others. -/
theorem pipeRun_cons (bits : Nat) (s : PipeRun) (op : PipeOp) (ops : List PipeOp) :
    PipeRun.run bits s (op :: ops) = PipeRun.run bits (PipeRun.step bits s op) ops := rfl

/-- A run over `a ++ b` is a run over `a` continued over `b`. -/
theorem pipeRun_append (bits : Nat) (s : PipeRun) (a b : List PipeOp) :
    PipeRun.run bits s (a ++ b) = PipeRun.run bits (PipeRun.run bits s a) b := by
  simp [PipeRun.run, List.foldl_append]

/-- A run of appends only: the counter is the sum modulo the word size, nothing is read. -/
theorem pipeRun_appends (bits : Nat) (cmds : List (String × List String)) (s : PipeRun)
    (hs : s.conn.pending < 2 ^ bits) :
    (PipeRun.run bits s (cmds.map (fun c => PipeOp.append c.1 c.2))).conn.pending
        = (s.conn.pending + cmds.length) % 2 ^ bits ∧
    (PipeRun.run bits s (cmds.map (fun c => PipeOp.append c.1 c.2))).conn.client
        = s.conn.client ∧
    (PipeRun.run bits s (cmds.map (fun c => PipeOp.append c.1 c.2))).results
        = s.results := by
  induction cmds generalizing s with
  | nil => simp [PipeRun.run, Nat.mod_eq_of_lt hs]
  | cons c cs ih =>
    rw [List.map_cons, pipeRun_cons]
    obtain ⟨h1, h2, h3⟩ := ih (PipeRun.step bits s (PipeOp.append c.1 c.2))
      (Nat.mod_lt _ (Nat.two_pow_pos bits))
    refine ⟨?_, ?_, ?_⟩
    · rw [h1]
      simp only [PipeRun.step, connectionImpl.PipeAppend, List.length_cons]
      rw [Nat.mod_add_mod]
      congr 1
      omega
    · rw [h2]; rfl
    · rw [h3]; rfl

/-- A run of reads only, started with `pending = p`: at most `p` reads succeed. -/
theorem pipeRun_responses (bits : Nat) (resps : List Resp) (s : PipeRun) :
    (PipeRun.run bits s (resps.map PipeOp.response)).readBack ≤ s.readBack + resps.length ∧
    ((PipeRun.run bits s (resps.map PipeOp.response)).readBack = s.readBack + resps.length →
      (PipeRun.run bits s (resps.map PipeOp.response)).conn.pending + resps.length
        = s.conn.pending) := by
  induction resps generalizing s with
  | nil => simp [PipeRun.run]
  | cons r rs ih =>
    rw [List.map_cons, pipeRun_cons]
    obtain ⟨h1, h2⟩ := ih (PipeRun.step bits s (PipeOp.response r))
    obtain ⟨e, v⟩ := r
    by_cases hp : s.conn.pending = 0
    · have hs : (PipeRun.step bits s (PipeOp.response ⟨e, v⟩)).readBack = s.readBack := by
        simp [PipeRun.step, connectionImpl.PipeResponse, assert.Assert, hp, PipeRun.readBack,
          List.countP_append, isReadBack]
      rw [hs] at h1 h2
      simp only [List.length_cons]
      constructor
      · omega
      · intro h; omega
    · cases e with
      | some m =>
        have hs : (PipeRun.step bits s (PipeOp.response ⟨some m, v⟩)).readBack = s.readBack := by
          simp [PipeRun.step, connectionImpl.PipeResponse, assert.Assert, hp, PipeRun.readBack,
            List.countP_append, isReadBack, checkError, Nat.pos_iff_ne_zero]
        rw [hs] at h1 h2
        simp only [List.length_cons]
        constructor
        · omega
        · intro h; omega
      | none =>
        have hs : (PipeRun.step bits s (PipeOp.response ⟨none, v⟩)).readBack
            = s.readBack + 1 := by
          simp [PipeRun.step, connectionImpl.PipeResponse, assert.Assert, hp, PipeRun.readBack,
            List.countP_append, isReadBack, checkError, Nat.pos_iff_ne_zero]
        have hq : (PipeRun.step bits s (PipeOp.response ⟨none, v⟩)).conn.pending + 1
            = s.conn.pending := by
          simp [PipeRun.step, connectionImpl.PipeResponse, assert.Assert, hp, checkError,
            Nat.pos_iff_ne_zero]
          omega
        rw [hs] at h1 h2
        simp only [List.length_cons]
        constructor
        · omega
        · intro h
          have := h2 (by omega)
          omega


/-- C6: on the connection returned by a successful `Get` (`pending = 0`), for every
`n`, `n` calls of `PipeAppend` followed by `n` successful calls of `PipeResponse`
leave `pending = 0`, and one more `PipeResponse` fails the assertion, reads no reply
from the client and leaves the connection as it was. -/
theorem pipeline_balanced (bits : Nat) (this this1 : poolImpl) (ret : ClientPtr × error)
    (c : connectionImpl) (cs : List Call) (cmds : List (String × List String))
    (resps : List Resp) (extra : Resp)
    (hget : poolImpl.Get this ret = (.ok c, this1, cs))
    (hlen : resps.length = cmds.length)
    (hok : (PipeRun.run bits (PipeRun.start c)
        (cmds.map (fun c => PipeOp.append c.1 c.2) ++ resps.map PipeOp.response)).readBack
          = resps.length) :
    (PipeRun.run bits (PipeRun.start c)
        (cmds.map (fun c => PipeOp.append c.1 c.2) ++ resps.map PipeOp.response)).conn.pending
      = 0 ∧
    connectionImpl.PipeResponse (PipeRun.run bits (PipeRun.start c)
        (cmds.map (fun c => PipeOp.append c.1 c.2) ++ resps.map PipeOp.response)).conn extra
      = (.error Panic.assertFailed,
         (PipeRun.run bits (PipeRun.start c)
          (cmds.map (fun c => PipeOp.append c.1 c.2) ++ resps.map PipeOp.response)).conn,
         []) := by
  have hc : c.pending = 0 := by
    obtain ⟨client, err⟩ := ret
    cases err with
    | some m => simp [poolImpl.Get, checkError] at hget
    | none =>
      simp only [poolImpl.Get, checkError, Prod.mk.injEq, Except.ok.injEq] at hget
      rw [← hget.1]
  rw [pipeRun_append] at hok ⊢
  obtain ⟨ha1, -, ha3⟩ := pipeRun_appends bits cmds (PipeRun.start c)
    (by simp [PipeRun.start, hc, Nat.two_pow_pos])
  obtain ⟨-, hr2⟩ := pipeRun_responses bits resps
    (PipeRun.run bits (PipeRun.start c) (cmds.map (fun c => PipeOp.append c.1 c.2)))
  have h0 : (PipeRun.run bits (PipeRun.start c)
      (cmds.map (fun c => PipeOp.append c.1 c.2))).readBack = 0 := by
    rw [PipeRun.readBack, ha3]; rfl
  have hbal := hr2 (by rw [hok, h0]; simp)
  have hle : (c.pending + cmds.length) % 2 ^ bits ≤ cmds.length := by
    rw [hc, Nat.zero_add]; exact Nat.mod_le _ _
  have ha1 : (PipeRun.run bits (PipeRun.start c)
      (cmds.map (fun c => PipeOp.append c.1 c.2))).conn.pending
        = (c.pending + cmds.length) % 2 ^ bits := ha1
  generalize (c.pending + cmds.length) % 2 ^ bits = q at ha1 hle
  have hz : (PipeRun.run bits (PipeRun.run bits (PipeRun.start c)
      (cmds.map (fun c => PipeOp.append c.1 c.2))) (resps.map PipeOp.response)).conn.pending
        = 0 := by
    omega
  refine ⟨hz, ?_⟩
  simp [connectionImpl.PipeResponse, assert.Assert, hz]

/-- Witness of C6 with `n = 1`: one `PipeAppend`, one `PipeResponse`, then a second one. -/
theorem pipeline_balanced_witness :
    (PipeRun.run 64 (PipeRun.start ⟨some 7, 0⟩)
        ([("INCRBY", ["k", "1"])].map (fun c => PipeOp.append c.1 c.2)
          ++ [(⟨none, "1"⟩ : Resp)].map PipeOp.response)).conn.pending
      = 0 ∧
    connectionImpl.PipeResponse (PipeRun.run 64 (PipeRun.start ⟨some 7, 0⟩)
        ([("INCRBY", ["k", "1"])].map (fun c => PipeOp.append c.1 c.2)
          ++ [(⟨none, "1"⟩ : Resp)].map PipeOp.response)).conn ⟨none, "2"⟩
      = (.error Panic.assertFailed,
         (PipeRun.run 64 (PipeRun.start ⟨some 7, 0⟩)
          ([("INCRBY", ["k", "1"])].map (fun c => PipeOp.append c.1 c.2)
            ++ [(⟨none, "1"⟩ : Resp)].map PipeOp.response)).conn,
         []) :=
  pipeline_balanced 64 ⟨⟨3, 10, 1⟩⟩ ⟨⟨4, 11, 1⟩⟩ (some 7, none) ⟨some 7, 0⟩ [Call.poolGet]
    [("INCRBY", ["k", "1"])] [⟨none, "1"⟩] ⟨none, "2"⟩ rfl rfl (by decide)


/-- A run of reads only on replies without error, with enough commands pending: every
read succeeds. -/
theorem pipeRun_responses_ok (bits : Nat) (resps : List Resp) (s : PipeRun)
    (hp : resps.length ≤ s.conn.pending) (herr : ∀ r ∈ resps, r.Err = none) :
    (PipeRun.run bits s (resps.map PipeOp.response)).readBack
      = s.readBack + resps.length := by
  induction resps generalizing s with
  | nil => simp [PipeRun.run]
  | cons r rs ih =>
    rw [List.map_cons, pipeRun_cons]
    simp only [List.length_cons] at hp
    have hr : r.Err = none := herr r (List.mem_cons_self r rs)
    have hpos : 0 < s.conn.pending := by omega
    have hs : (PipeRun.step bits s (PipeOp.response r)).readBack = s.readBack + 1 := by
      simp [PipeRun.step, connectionImpl.PipeResponse, assert.Assert, hpos, PipeRun.readBack,
        List.countP_append, isReadBack, checkError, hr]
    have hq : (PipeRun.step bits s (PipeOp.response r)).conn.pending + 1
        = s.conn.pending := by
      simp [PipeRun.step, connectionImpl.PipeResponse, assert.Assert, hpos, checkError, hr]
      omega
    rw [ih _ (by omega) (fun x hx => herr x (List.mem_cons_of_mem r hx)), hs]
    simp only [List.length_cons]
    omega

/-- Below the word size, `n` appends followed by `n` reads of replies without error
are `n` successful reads: the premise of `pipeline_balanced` is met. -/
theorem pipeline_reads_succeed (bits : Nat) (client : ClientPtr)
    (cmds : List (String × List String)) (resps : List Resp)
    (hlen : resps.length = cmds.length) (hlt : cmds.length < 2 ^ bits)
    (herr : ∀ r ∈ resps, r.Err = none) :
    (PipeRun.run bits (PipeRun.start ⟨client, 0⟩)
        (cmds.map (fun c => PipeOp.append c.1 c.2) ++ resps.map PipeOp.response)).readBack
      = resps.length := by
  rw [pipeRun_append]
  obtain ⟨ha1, -, ha3⟩ := pipeRun_appends bits cmds (PipeRun.start ⟨client, 0⟩)
    (by simp [PipeRun.start, Nat.two_pow_pos])
  have ha1 : (PipeRun.run bits (PipeRun.start ⟨client, 0⟩)
      (cmds.map (fun c => PipeOp.append c.1 c.2))).conn.pending = cmds.length := by
    rw [ha1]
    simp [PipeRun.start, Nat.mod_eq_of_lt hlt]
  rw [pipeRun_responses_ok bits resps _ (by omega) herr, PipeRun.readBack, ha3]
  simp [PipeRun.start]

/-- Balance of any run that stays below the word size: commands appended are either
still pending or were consumed by a `PipeResponse` that passed the assertion. -/
theorem pipeRun_balance (bits : Nat) (ops : List PipeOp) (s : PipeRun)
    (h : s.conn.pending + appended ops < 2 ^ bits) :
    (PipeRun.run bits s ops).conn.pending + (PipeRun.run bits s ops).readBack
        + (PipeRun.run bits s ops).aborted
      = s.conn.pending + appended ops + s.readBack + s.aborted ∧
    (PipeRun.run bits s ops).conn.client = s.conn.client := by
  induction ops generalizing s with
  | nil => simp [PipeRun.run, appended]
  | cons op ops ih =>
    rw [pipeRun_cons]
    cases op with
    | append cmd args =>
      have ha : appended (PipeOp.append cmd args :: ops) = appended ops + 1 := by
        simp [appended, PipeOp.isAppend]
      rw [ha] at h ⊢
      have hp : (PipeRun.step bits s (PipeOp.append cmd args)).conn.pending
          = s.conn.pending + 1 := by
        simp only [PipeRun.step, connectionImpl.PipeAppend]
        exact Nat.mod_eq_of_lt (by omega)
      have hr : (PipeRun.step bits s (PipeOp.append cmd args)).readBack = s.readBack := rfl
      have hb : (PipeRun.step bits s (PipeOp.append cmd args)).aborted = s.aborted := rfl
      have hcl : (PipeRun.step bits s (PipeOp.append cmd args)).conn.client
          = s.conn.client := rfl
      obtain ⟨h1, h2⟩ := ih (PipeRun.step bits s (PipeOp.append cmd args)) (by omega)
      rw [h1, h2, hp, hr, hb, hcl]
      exact ⟨by omega, rfl⟩
    | response resp =>
      have ha : appended (PipeOp.response resp :: ops) = appended ops := by
        simp [appended, PipeOp.isAppend]
      rw [ha] at h ⊢
      have hstep : (PipeRun.step bits s (PipeOp.response resp)).conn.pending
            + (PipeRun.step bits s (PipeOp.response resp)).readBack
            + (PipeRun.step bits s (PipeOp.response resp)).aborted
          = s.conn.pending + s.readBack + s.aborted ∧
          (PipeRun.step bits s (PipeOp.response resp)).conn.client = s.conn.client ∧
          (PipeRun.step bits s (PipeOp.response resp)).conn.pending ≤ s.conn.pending := by
        obtain ⟨e, v⟩ := resp
        by_cases hp : s.conn.pending = 0
        · simp [PipeRun.step, connectionImpl.PipeResponse, assert.Assert, hp,
            PipeRun.readBack, PipeRun.aborted, List.countP_append, isReadBack, isAborted]
        · cases e with
          | none =>
            simp [PipeRun.step, connectionImpl.PipeResponse, assert.Assert, hp,
              PipeRun.readBack, PipeRun.aborted, List.countP_append, isReadBack, isAborted,
              checkError, Nat.pos_iff_ne_zero]
            omega
          | some m =>
            simp [PipeRun.step, connectionImpl.PipeResponse, assert.Assert, hp,
              PipeRun.readBack, PipeRun.aborted, List.countP_append, isReadBack, isAborted,
              checkError, Nat.pos_iff_ne_zero]
            omega
      obtain ⟨hs1, hs2, hs3⟩ := hstep
      obtain ⟨h1, h2⟩ := ih (PipeRun.step bits s (PipeOp.response resp)) (by omega)
      rw [h1, h2]
      exact ⟨by omega, hs2⟩


/-- C2, amended: on a connection obtained from `Get`, after any sequence of
`PipeAppend` and `PipeResponse` calls (panics caught by the caller) that appends fewer
than `2 ^ bits` commands, if the commands appended outnumber the `PipeResponse` calls
that read a reply, with success or with a `RedisError`, then `Put` closes the client,
counts it as closed and makes no `pool.Put`. -/
theorem unflushed_connection_closed (bits : Nat) (this this1 : poolImpl)
    (ret : ClientPtr × error) (c : connectionImpl) (cs : List Call) (ops : List PipeOp)
    (hget : poolImpl.Get this ret = (.ok c, this1, cs))
    (hrange : appended ops < 2 ^ bits)
    (hlt : (PipeRun.run bits (PipeRun.start c) ops).readBack
        + (PipeRun.run bits (PipeRun.start c) ops).aborted < appended ops) :
    poolImpl.Put this1 (PipeRun.run bits (PipeRun.start c) ops).conn =
      ({ stats := { connectionActive := this1.stats.connectionActive - 1,
                    connectionTotal := this1.stats.connectionTotal,
                    connectionClose := this1.stats.connectionClose + 1 } },
       [Call.clientClose ret.1]) ∧
    ∀ x : ClientPtr, Call.poolPut x ∉
      (poolImpl.Put this1 (PipeRun.run bits (PipeRun.start c) ops).conn).2 := by
  have hc : c = ⟨ret.1, 0⟩ := by
    obtain ⟨client, err⟩ := ret
    cases err with
    | some m => simp [poolImpl.Get, checkError] at hget
    | none =>
      simp only [poolImpl.Get, checkError, Prod.mk.injEq, Except.ok.injEq] at hget
      exact hget.1.symm
  subst hc
  obtain ⟨hb, hcl⟩ := pipeRun_balance bits ops (PipeRun.start ⟨ret.1, 0⟩)
    (by simpa [PipeRun.start] using hrange)
  have hs0 : (PipeRun.start ⟨ret.1, 0⟩).conn.pending = 0 := rfl
  have hs1 : (PipeRun.start ⟨ret.1, 0⟩).readBack = 0 := rfl
  have hs2 : (PipeRun.start ⟨ret.1, 0⟩).aborted = 0 := rfl
  have hs3 : (PipeRun.start ⟨ret.1, 0⟩).conn.client = ret.1 := rfl
  rw [hs0, hs1, hs2] at hb
  rw [hs3] at hcl
  have hne : (PipeRun.run bits (PipeRun.start ⟨ret.1, 0⟩) ops).conn.pending ≠ 0 := by
    omega
  simp [poolImpl.Put, hne, Gauge.Dec, Counter.Inc, hcl]

/-- Witness of C2 amended: two commands appended, one read aborted, one reply unread. -/
theorem unflushed_connection_closed_witness :
    poolImpl.Put ⟨⟨4, 11, 1⟩⟩ (PipeRun.run 64 (PipeRun.start ⟨some 7, 0⟩)
        [PipeOp.append "INCRBY" ["k", "1"], PipeOp.append "EXPIRE" ["k", "60"],
         PipeOp.response ⟨some "EOF", ""⟩]).conn =
      (⟨⟨4 - 1, 11, 1 + 1⟩⟩, [Call.clientClose (some 7)]) ∧
    ∀ x : ClientPtr, Call.poolPut x ∉
      (poolImpl.Put ⟨⟨4, 11, 1⟩⟩ (PipeRun.run 64 (PipeRun.start ⟨some 7, 0⟩)
        [PipeOp.append "INCRBY" ["k", "1"], PipeOp.append "EXPIRE" ["k", "60"],
         PipeOp.response ⟨some "EOF", ""⟩]).conn).2 :=
  unflushed_connection_closed 64 ⟨⟨3, 10, 1⟩⟩ ⟨⟨4, 11, 1⟩⟩ (some 7, none) ⟨some 7, 0⟩
    [Call.poolGet]
    [PipeOp.append "INCRBY" ["k", "1"], PipeOp.append "EXPIRE" ["k", "60"],
     PipeOp.response ⟨some "EOF", ""⟩] rfl (by decide) (by decide)

/-- C2 as stated fails: one command appended, one `PipeResponse` that aborts with a
`RedisError`; no reply was read back with success, yet `pending` is `0` and `Put`
hands the client to `pool.Put` without closing it. -/
theorem aborted_read_recycled :
    poolImpl.Get ⟨⟨0, 0, 0⟩⟩ (some 7, none)
      = (.ok ⟨some 7, 0⟩, ⟨⟨1, 1, 0⟩⟩, [Call.poolGet]) ∧
    (PipeRun.run 64 (PipeRun.start ⟨some 7, 0⟩)
      [PipeOp.append "INCRBY" ["k", "1"], PipeOp.response ⟨some "EOF", ""⟩]).results
      = [.error (Panic.redisError ⟨"EOF"⟩)] ∧
    (PipeRun.run 64 (PipeRun.start ⟨some 7, 0⟩)
      [PipeOp.append "INCRBY" ["k", "1"], PipeOp.response ⟨some "EOF", ""⟩]).readBack
      < appended [PipeOp.append "INCRBY" ["k", "1"], PipeOp.response ⟨some "EOF", ""⟩] ∧
    poolImpl.Put ⟨⟨1, 1, 0⟩⟩ (PipeRun.run 64 (PipeRun.start ⟨some 7, 0⟩)
      [PipeOp.append "INCRBY" ["k", "1"], PipeOp.response ⟨some "EOF", ""⟩]).conn
      = (⟨⟨0, 1, 0⟩⟩, [Call.poolPut (some 7)]) ∧
    Call.clientClose (some 7) ∉
      (poolImpl.Put ⟨⟨1, 1, 0⟩⟩ (PipeRun.run 64 (PipeRun.start ⟨some 7, 0⟩)
        [PipeOp.append "INCRBY" ["k", "1"], PipeOp.response ⟨some "EOF", ""⟩]).conn).2 := by
  refine ⟨rfl, rfl, by decide, rfl, by decide⟩

/-- The counter wraps: after `2 ^ 64` appends on a fresh connection of a 64-bit target
no read has been made, yet `pending` is `0` and `Put` recycles the client. -/
theorem pending_wraps (client : ClientPtr) (this : poolImpl) :
    (PipeRun.run 64 (PipeRun.start ⟨client, 0⟩)
      ((List.replicate (2 ^ 64) ("PING", [])).map
        (fun c => PipeOp.append c.1 c.2))).conn.pending = 0 ∧
    (poolImpl.Put this (PipeRun.run 64 (PipeRun.start ⟨client, 0⟩)
      ((List.replicate (2 ^ 64) ("PING", [])).map
        (fun c => PipeOp.append c.1 c.2))).conn).2 = [Call.poolPut client] := by
  obtain ⟨h1, h2, -⟩ := pipeRun_appends 64 (List.replicate (2 ^ 64) ("PING", []))
    (PipeRun.start ⟨client, 0⟩) (by simp [PipeRun.start])
  have hz : (PipeRun.run 64 (PipeRun.start ⟨client, 0⟩)
      ((List.replicate (2 ^ 64) ("PING", [])).map
        (fun c => PipeOp.append c.1 c.2))).conn.pending = 0 := by
    rw [h1, List.length_replicate]
    simp [PipeRun.start]
  refine ⟨hz, ?_⟩
  simp only [poolImpl.Put, hz, h2]
  rfl

/-! ## Sequences of calls on the pool -/

/-- One valid call on the pool keeps the active gauge in step with the number of
connections checked out. -/
theorem poolRun_step_active (s s1 : PoolRun) (op : PoolOp) (h : PoolRun.step s op = some s1) :
    s1.this.stats.connectionActive - s1.out.length
      = s.this.stats.connectionActive - s.out.length := by
  cases op with
  | get ret =>
    obtain ⟨client, err⟩ := ret
    cases err with
    | none =>
      simp only [PoolRun.step, poolImpl.Get, checkError, Option.some.injEq] at h
      subst h
      simp [Gauge.Inc]
    | some m =>
      simp only [PoolRun.step, poolImpl.Get, checkError, Option.some.injEq] at h
      subst h
      rfl
  | put i pending =>
    simp only [PoolRun.step] at h
    cases hg : s.out[i]? with
    | none => simp [hg] at h
    | some c =>
      simp only [hg, Option.some.injEq] at h
      subst h
      have hi : i < s.out.length := by
        rcases Nat.lt_or_ge i s.out.length with hlt | hge
        · exact hlt
        · rw [List.getElem?_eq_none hge] at hg; cases hg
      have hlen : (s.out.eraseIdx i).length = s.out.length - 1 := List.length_eraseIdx_of_lt hi
      have hact : (poolImpl.Put s.this { c with pending := pending }).1.stats.connectionActive
          = s.this.stats.connectionActive - 1 := by
        simp only [poolImpl.Put, Gauge.Dec]
        split <;> rfl
      simp only [hact, hlen]
      omega

/-- A run over `a ++ b` is a run over `a` followed by a run over `b`. -/
theorem poolRun_append (s : PoolRun) (a b : List PoolOp) :
    PoolRun.run s (a ++ b) = (PoolRun.run s a).bind (fun s1 => PoolRun.run s1 b) := by
  induction a generalizing s with
  | nil => rfl
  | cons op a ih =>
    simp only [List.cons_append, PoolRun.run]
    cases PoolRun.step s op with
    | none => rfl
    | some s1 => exact ih s1

/-- A valid run keeps the active gauge in step with the number of connections
checked out. -/
theorem poolRun_active (ops : List PoolOp) (s s1 : PoolRun)
    (h : PoolRun.run s ops = some s1) :
    s1.this.stats.connectionActive - s1.out.length
      = s.this.stats.connectionActive - s.out.length := by
  induction ops generalizing s with
  | nil =>
    simp only [PoolRun.run, Option.some.injEq] at h
    subst h; rfl
  | cons op ops ih =>
    simp only [PoolRun.run] at h
    cases hs : PoolRun.step s op with
    | none => simp [hs] at h
    | some s2 =>
      simp only [hs] at h
      rw [ih s2 h, poolRun_step_active s s2 op hs]

/-- C7: along every sequence of `Get` and `Put` calls in which each `Put` is given a
connection checked out and not yet returned, after each step (after the first `k`
calls, for every `k`) the active gauge equals its initial value plus the number of
connections checked out, so it never goes below its initial value; the `pending` of
a connection at `Put` time is arbitrary. -/
theorem active_counts_checked_out (this : poolImpl) (ops : List PoolOp) (s : PoolRun)
    (h : PoolRun.run (PoolRun.start this) ops = some s) (k : Nat) :
    ∃ sk : PoolRun, PoolRun.run (PoolRun.start this) (ops.take k) = some sk ∧
      sk.this.stats.connectionActive = this.stats.connectionActive + sk.out.length ∧
      this.stats.connectionActive ≤ sk.this.stats.connectionActive := by
  have hsplit : PoolRun.run (PoolRun.start this) (ops.take k ++ ops.drop k) = some s := by
    rw [List.take_append_drop]; exact h
  rw [poolRun_append] at hsplit
  cases hk : PoolRun.run (PoolRun.start this) (ops.take k) with
  | none => simp [hk] at hsplit
  | some sk =>
    have hact := poolRun_active (ops.take k) (PoolRun.start this) sk hk
    simp only [PoolRun.start, List.length_nil] at hact
    exact ⟨sk, rfl, by omega, by omega⟩

/-- Witness of C7: two checkouts around a failed `Get`, then both returned, one unflushed. -/
theorem active_counts_checked_out_witness :
    ∃ sk : PoolRun, PoolRun.run (PoolRun.start ⟨⟨0, 0, 0⟩⟩)
        ([PoolOp.get (some 7, none), PoolOp.get (none, some "pool emptied"),
          PoolOp.get (some 8, none), PoolOp.put 0 2, PoolOp.put 0 0].take 4) = some sk ∧
      sk.this.stats.connectionActive = (0 : Int) + sk.out.length ∧
      (0 : Int) ≤ sk.this.stats.connectionActive :=
  active_counts_checked_out ⟨⟨0, 0, 0⟩⟩
    [PoolOp.get (some 7, none), PoolOp.get (none, some "pool emptied"),
     PoolOp.get (some 8, none), PoolOp.put 0 2, PoolOp.put 0 0]
    ⟨⟨⟨0, 2, 1⟩⟩, [],
     [Call.poolGet, Call.poolGet, Call.poolGet, Call.clientClose (some 7),
      Call.poolPut (some 8)]⟩
    (by decide) 4

/-! ## The dial closure -/

/-- C9: the dial closure issues a client command (`AUTH`) only when the credential is
non-empty; with a non-empty credential, once connect and client construction have
succeeded, a failed `AUTH` is followed by `Close` on the client just opened and the
dial returns a nil client with that error; and the dial returns a client (a non-nil
client, or a nil error) only when connect, client construction and, for a non-empty
credential, `AUTH` all succeeded, in which case it returns the constructed client
and closes nothing. -/
theorem df_authenticates (useTls : Bool) (auth url : String) (env : DialEnv)
    (network addr : String) :
    ((∃ c cmd args, Call.clientCmd c cmd args ∈
        (NewPoolImpl.df useTls auth url env network addr).2) → auth ≠ "") ∧
    (auth ≠ "" → (if useTls then env.tlsDial else env.netDial).2 = none →
      env.newClient.2 = none → ∀ e : String, env.authErr = some e →
        (NewPoolImpl.df useTls auth url env network addr).1 = (none, some e) ∧
        (NewPoolImpl.df useTls auth url env network addr).2 =
          [if useTls then Call.tlsDial "tcp" addr else Call.netDial "tcp" addr,
           Call.newClient (if useTls then env.tlsDial else env.netDial).1,
           Call.warnf "enabling authentication to redis on %s" [url],
           Call.clientCmd env.newClient.1 "AUTH" [auth],
           Call.clientClose env.newClient.1]) ∧
    (((NewPoolImpl.df useTls auth url env network addr).1.1 ≠ none ∨
      (NewPoolImpl.df useTls auth url env network addr).1.2 = none) →
        (if useTls then env.tlsDial else env.netDial).2 = none ∧
        env.newClient.2 = none ∧
        (auth ≠ "" → env.authErr = none) ∧
        (NewPoolImpl.df useTls auth url env network addr).1 = (env.newClient.1, none) ∧
        ∀ x : ClientPtr, Call.clientClose x ∉
          (NewPoolImpl.df useTls auth url env network addr).2) := by
  obtain ⟨⟨tc, te⟩, ⟨nc, ne⟩, ⟨cl, ce⟩, ae⟩ := env
  by_cases ha : auth = ""
  · cases useTls <;> cases te <;> cases ne <;> cases ce <;> cases ae <;>
      simp [NewPoolImpl.df, ha]
  · cases useTls <;> cases te <;> cases ne <;> cases ce <;> cases ae <;>
      simp [NewPoolImpl.df, ha]

end redis
